import Mathlib

/-!
Shallow embedding of `src/src/Unserializer.ts` (the qwkpkt decoder).

The TypeScript decoder is a tag-dispatched recursive-descent parser over a
character buffer with two growable caches:
* `cache`  — compound values (arrays, objects, class/enum instances, maps,
  dates, byte buffers); modelled here as a heap `List HObj`, where the cache
  index is the heap address (in the source every compound allocation is
  immediately followed by its `cache.push`, so cache index = creation order).
* `scache` — decoded string literals.

Mutable JavaScript objects are modelled as heap addresses (`Value.ref`), so
object identity, shared references and cyclic structures are expressible.

Modelling notes (host-language semantics that the source relies on):
* `charCodeAt` out of range yields NaN; modelled as `Option Char` = `none`.
  The cursor is an `Int` because the `y` handler executes `pos += len` with a
  possibly negative `len`, which moves the cursor backwards in JS.
* JS numbers are modelled as exact `Int` for the integer reader (the float
  imprecision of very long digit runs is not exercised by any claim).
* `parseFloat` results are kept symbolic: `FloatLit.lit s` denotes the host
  parse of the captured substring `s` (so `lit ""` denotes NaN, etc.).
* `decodeURIComponent` is modelled as single-byte percent-decoding that fails
  (URIError) on a `%` not followed by two hex digits; multi-byte UTF-8
  validation is not modelled (no claim depends on it).
* `Buffer.from(_, 'base64')` never throws; the byte buffer is modelled by the
  captured substring after the `%`→`+`, `:`→`/` substitution (no claim
  inspects the decoded bytes).
* `WeakMap.set` throws a TypeError when the key is not an object; in the
  model the objects are exactly the `Value.ref` values.
* `new Array(n)` throws a RangeError for negative `n` (enum argument count).
* Registry lookup is modelled for string names; a non-string decoded name
  does not resolve (JS would coerce the key to a string, a corner no claim
  exercises).

Recursion is bounded by explicit fuel; every level of the engine consumes one
unit, so any terminating execution succeeds for all sufficiently large fuel,
and `DErr.outOfFuel` is distinguishable from every genuine decode error.
-/

set_option autoImplicit false

namespace Qwkpkt

/-- Symbolic floating-point literal: `lit s` denotes the host-language
`parseFloat` of the captured substring `s`; the other constructors are the
literals the decoder produces directly (tags `k`, `m`, `p`). -/
inductive FloatLit where
  | lit (s : String)
  | nan
  | negInf
  | posInf
deriving DecidableEq, Repr

/-- A decoded value: JS primitives, or a reference into the heap of compound
objects (JS object identity = heap address). -/
inductive Value where
  | vnull
  | vbool (b : Bool)
  | vint (n : Int)
  | vfloat (f : FloatLit)
  | vstr (s : String)
  | ref (a : Nat)
deriving DecidableEq, Repr

/-- Heap objects: the mutable compound values the decoder creates. Array
cells are `Option Value`: `none` is an unassigned hole, `some .vnull` an
explicit null (the distinction required for the `u` sparse-fill directive). -/
inductive HObj where
  | harr (cells : List (Option Value))
  | hobj (fields : List (String × Value))
  | hlist (xs : List Value)
  | hsmap (pairs : List (Value × Value))
  | himap (pairs : List (Int × Value))
  | hwmap (pairs : List (Value × Value))
  | hdate (f : FloatLit)
  | hbytes (data : String)
  | hinst (cls : String) (fields : List (String × Value))
  | henum (ename : String) (ctor : String) (args : List Value)
deriving DecidableEq, Repr

/-- Ghost instrumentation: one record per `cache.push` in the source.
`lenStart` is the cache (= heap) length right after the value's tag byte was
consumed; `lenName` is the length right after the type name was resolved (for
tags `c`, `C`, `w`, `j`; equal to `lenStart` for the tags with no name);
`lenPre` is the length immediately before the push, i.e. the pushed slot's
index. -/
structure PushRec where
  tag : Char
  lenStart : Nat
  lenName : Nat
  lenPre : Nat
deriving DecidableEq, Repr

/-- The decoder state visible to custom-decode hooks: input buffer, cursor,
compound-value cache (heap) and string cache.  Mirrors fields `buf`, `pos`,
`cache`, `scache` of the `Unserializer` class. -/
structure CoreSt where
  buf : List Char
  pos : Int
  heap : List HObj
  scache : List String
deriving DecidableEq, Repr

/-- Full state: core state plus the ghost trace of cache pushes (the trace is
instrumentation, not part of the source program's state). -/
structure St where
  core : CoreSt
  trace : List PushRec
deriving DecidableEq, Repr

/-- Decode errors: each constructor corresponds to one `throw` site of the
source (or a host-language exception the source can trigger), plus
`outOfFuel` for the fuel bound of the embedding. -/
inductive DErr where
  | invalidObject
  | invalidObjectKey
  | unknownEnumCtor
  | invalidEnumArgCount
  | invalidStringLength
  | invalidBytesLength
  | invalidReference
  | invalidStringReference
  | invalidIntMap
  | invalidCustomData
  | missingCustomDecode
  | classNotFound (v : Value)
  | enumNotFound (v : Value)
  | propagated (v : Value)
  | notImplemented (s : String)
  | invalidChar (pos : Int)
  | uriError
  | invalidWeakKey
  | outOfFuel
deriving DecidableEq, Repr

/-- `charCodeAt` with NaN-at-out-of-range modelled as `none`. -/
def chAt (buf : List Char) (i : Int) : Option Char :=
  if 0 ≤ i then buf.get? i.toNat else none

/-- JS `String.prototype.substr(start, len)` on a character list. -/
def jsSubstr (buf : List Char) (start len : Int) : List Char :=
  let st : Int := if start < 0 then max ((buf.length : Int) + start) 0 else start
  (buf.drop st.toNat).take (max len 0).toNat

/-- Decimal digit test used by `readDigits` (`c < 48 || c > 57` in source). -/
def isDigitCh (c : Char) : Bool :=
  48 ≤ c.toNat && c.toNat ≤ 57

/-- The digit-accumulation loop of `readDigits` (source lines 134-149) on the
remaining characters: returns the accumulated value and the number of
characters consumed.  A `-` that is not the very first character stops the
loop, exactly as in the source. -/
def digitsLoop : List Char → Int → Int × Nat
  | [], k => (k, 0)
  | c :: rest, k =>
    if isDigitCh c then
      let (k2, n) := digitsLoop rest (k * 10 + ((c.toNat : Int) - 48))
      (k2, n + 1)
    else (k, 0)

/-- `readDigits` (source lines 129-153): optional leading `-` (only at the
first position), then decimal digits; stops at the first non-digit or end of
input; returns 0 when no digits were consumed.  A negative cursor reads NaN
immediately, so nothing is consumed. -/
def readDigitsP (buf : List Char) (pos : Int) : Int × Int :=
  if pos < 0 then (0, pos)
  else
    match buf.drop pos.toNat with
    | '-' :: rest =>
      let (k, n) := digitsLoop rest 0
      (-k, pos + 1 + n)
    | rest =>
      let (k, n) := digitsLoop rest 0
      (k, pos + n)

/-- Float character class of `readFloat` (source line 163):
`(c >= 43 && c < 58) || c == 'e' || c == 'E'` — i.e. codes 43–57, which is
`+ , - . /` and the digits, plus `e`/`E`. -/
def isFloatChar (c : Char) : Bool :=
  (43 ≤ c.toNat && c.toNat < 58) || c = 'e' || c = 'E'

/-- The scanning loop of `readFloat` (source lines 158-167): the run of
float-class characters at the head of the remaining input. -/
def floatScan : List Char → List Char
  | [] => []
  | c :: rest => if isFloatChar c then c :: floatScan rest else []

/-- `readFloat` (source lines 155-169): scan the maximal float-class run
starting at the cursor and return the (symbolic) `parseFloat` of the captured
substring together with the new cursor. -/
def readFloatP (buf : List Char) (pos : Int) : FloatLit × Int :=
  if pos < 0 then (.lit "", pos)
  else
    let run := floatScan (buf.drop pos.toNat)
    (.lit (String.mk run), pos + run.length)

/-- Hexadecimal digit value, for percent-decoding. -/
def hexVal (c : Char) : Option Nat :=
  if 48 ≤ c.toNat ∧ c.toNat ≤ 57 then some (c.toNat - 48)
  else if 65 ≤ c.toNat ∧ c.toNat ≤ 70 then some (c.toNat - 55)
  else if 97 ≤ c.toNat ∧ c.toNat ≤ 102 then some (c.toNat - 87)
  else none

/-- Model of `decodeURIComponent`: byte-wise percent-decoding; `none` models
the URIError thrown on a `%` not followed by two hex digits. -/
def percentDecode : List Char → Option (List Char)
  | [] => some []
  | '%' :: c1 :: c2 :: rest =>
    match hexVal c1, hexVal c2 with
    | some a, some b =>
      match percentDecode rest with
      | some t => some (Char.ofNat (a * 16 + b) :: t)
      | none => none
    | _, _ => none
  | '%' :: _ => none
  | c :: rest =>
    match percentDecode rest with
    | some t => some (c :: t)
    | none => none

/-- The modified-base64 character substitution of the `s` handler (source
lines 312-316): `%` → `+` and `:` → `/`. -/
def b64Sub (c : Char) : Char :=
  if c = '%' then '+' else if c = ':' then '/' else c

/-- A custom-decode hook (`_qwkpktDecode`): resolver-supplied code that
borrows the engine state, reads from the cursor, and either returns or
throws.  It sees the core state only (the ghost trace is instrumentation,
not program state). -/
def HookFn : Type :=
  CoreSt → Except (DErr × CoreSt) CoreSt

/-- A resolved class: what the engine needs from `resolveClass` — the ability
to create a bare instance (`Object.create(cl.prototype)`) and the optional
`_qwkpktDecode` hook for tag `C` (absent hook = the TypeError at source line
328, "no _qwkpktDecode method"). -/
structure ClassDesc where
  custom : Option HookFn

/-- One enum variant constructor: its `name` static (parameters are bound
positionally by the stream, so only the name is needed for resolution). -/
structure EnumCtorDesc where
  name : String

/-- A resolved enum: the ordered `getEnumConstructs()` list. -/
structure EnumDesc where
  constructs : List EnumCtorDesc

/-- The `TypeResolver` capability (source lines 4-7). -/
structure Resolver where
  resolveClass : String → Option ClassDesc
  resolveEnum : String → Option EnumDesc

/-- Class lookup on a decoded name value: string names consult the resolver,
non-string names do not resolve. -/
def lookupClass (r : Resolver) (v : Value) : Option (String × ClassDesc) :=
  match v with
  | .vstr n =>
    match r.resolveClass n with
    | some d => some (n, d)
    | none => none
  | _ => none

/-- Enum lookup on a decoded name value. -/
def lookupEnum (r : Resolver) (v : Value) : Option (String × EnumDesc) :=
  match v with
  | .vstr n =>
    match r.resolveEnum n with
    | some d => some (n, d)
    | none => none
  | _ => none

/-- Variant resolution in `unserializeEnum` (source lines 116-120): a number
tag indexes `constructs`, a string tag is matched by name, anything else
fails.  (A JS float that happens to be integral would also index; claims do
not exercise float variant tags.) -/
def findCtor (ctors : List EnumCtorDesc) (tagv : Value) : Option EnumCtorDesc :=
  match tagv with
  | .vint n => if 0 ≤ n then ctors.get? n.toNat else none
  | .vstr nm => ctors.find? (fun e => e.name = nm)
  | _ => none

/-! ### State helpers -/

/-- `this.buf.charCodeAt(this.pos)`. -/
def St.peek (s : St) : Option Char :=
  chAt s.core.buf s.core.pos

/-- Move the cursor by `k` (`pos++`, `pos--`, `pos += len`). -/
def St.adv (s : St) (k : Int) : St :=
  { s with core := { s.core with pos := s.core.pos + k } }

/-- Set the cursor. -/
def St.setPos (s : St) (p : Int) : St :=
  { s with core := { s.core with pos := p } }

/-- `this.scache.push(t)`. -/
def St.pushStr (s : St) (t : String) : St :=
  { s with core := { s.core with scache := s.core.scache ++ [t] } }

/-- Allocate a compound object and push it onto the compound cache
(`this.cache.push(x)`), returning its address (= cache index); records the
ghost `PushRec` with the provided `lenStart`/`lenName` measurements. -/
def St.allocRec (s : St) (obj : HObj) (tg : Char) (lenStart lenName : Nat) :
    Nat × St :=
  (s.core.heap.length,
   { core := { s.core with heap := s.core.heap ++ [obj] },
     trace := s.trace ++ [⟨tg, lenStart, lenName, s.core.heap.length⟩] })

/-- Apply a pure transformation to the heap (object mutation). -/
def St.mapHeap (s : St) (f : List HObj → List HObj) : St :=
  { s with core := { s.core with heap := f s.core.heap } }

/-- JS property assignment `o[k] = v` on an insertion-ordered field list: an
existing key keeps its position, a new key is appended. -/
def assignField (fs : List (String × Value)) (k : String) (v : Value) :
    List (String × Value) :=
  if fs.any (fun p => p.1 = k) then
    fs.map (fun p => if p.1 = k then (k, v) else p)
  else fs ++ [(k, v)]

/-- Assignment keyed by an arbitrary value (string maps `b`, identity maps
`M`: for `M` the keys are `ref`s, so value equality is address identity). -/
def assignPair (fs : List (Value × Value)) (k : Value) (v : Value) :
    List (Value × Value) :=
  if fs.any (fun p => p.1 = k) then
    fs.map (fun p => if p.1 = k then (k, v) else p)
  else fs ++ [(k, v)]

/-- Assignment keyed by an integer (int maps `q`). -/
def assignInt (fs : List (Int × Value)) (k : Int) (v : Value) :
    List (Int × Value) :=
  if fs.any (fun p => p.1 = k) then
    fs.map (fun p => if p.1 = k then (k, v) else p)
  else fs ++ [(k, v)]

/-- JS array element assignment `a[i] = null` (only ever with `null` in the
source, at the `u` sparse-fill directive): a negative index is a plain
property (the element list is unchanged); an index below the length
overwrites; an index at or above the length extends the array with holes and
sets the last slot. -/
def arrSetNull (cells : List (Option Value)) (i : Int) : List (Option Value) :=
  if i < 0 then cells
  else if i < (cells.length : Int) then cells.set i.toNat (some .vnull)
  else cells ++ List.replicate (i.toNat - cells.length) none ++ [some .vnull]

/-- The `u<n>` sparse-fill directive body: `a[a.length + n - 1] = null`
(source line 216). -/
def uApply (cells : List (Option Value)) (n : Int) : List (Option Value) :=
  arrSetNull cells ((cells.length : Int) + n - 1)

/-- `o[k] = v` where `o` is the object or bare class instance at `addr`. -/
def St.setField (s : St) (addr : Nat) (k : String) (v : Value) : St :=
  s.mapHeap fun h =>
    match h.get? addr with
    | some (.hobj fs) => h.set addr (.hobj (assignField fs k v))
    | some (.hinst c fs) => h.set addr (.hinst c (assignField fs k v))
    | _ => h

/-- `a.push(v)` on the array at `addr`. -/
def St.aPush (s : St) (addr : Nat) (v : Value) : St :=
  s.mapHeap fun h =>
    match h.get? addr with
    | some (.harr cells) => h.set addr (.harr (cells ++ [some v]))
    | _ => h

/-- The `u<n>` directive applied to the array at `addr`. -/
def St.aFill (s : St) (addr : Nat) (n : Int) : St :=
  s.mapHeap fun h =>
    match h.get? addr with
    | some (.harr cells) => h.set addr (.harr (uApply cells n))
    | _ => h

/-- `l.push(v)` on the list at `addr`. -/
def St.lPush (s : St) (addr : Nat) (v : Value) : St :=
  s.mapHeap fun h =>
    match h.get? addr with
    | some (.hlist xs) => h.set addr (.hlist (xs ++ [v]))
    | _ => h

/-- `hsm[k] = v` on the string map at `addr`. -/
def St.bSet (s : St) (addr : Nat) (k v : Value) : St :=
  s.mapHeap fun h =>
    match h.get? addr with
    | some (.hsmap fs) => h.set addr (.hsmap (assignPair fs k v))
    | _ => h

/-- `him[i] = v` on the int map at `addr`. -/
def St.qSet (s : St) (addr : Nat) (i : Int) (v : Value) : St :=
  s.mapHeap fun h =>
    match h.get? addr with
    | some (.himap fs) => h.set addr (.himap (assignInt fs i v))
    | _ => h

/-- `wm.set(k, v)` on the identity map at `addr` (the key is known to be an
object when this is called). -/
def St.mSet (s : St) (addr : Nat) (k v : Value) : St :=
  s.mapHeap fun h =>
    match h.get? addr with
    | some (.hwmap fs) => h.set addr (.hwmap (assignPair fs k v))
    | _ => h

/-- `readDigits` on the full state. -/
def readDigits (s : St) : Int × St :=
  ((readDigitsP s.core.buf s.core.pos).1,
   s.setPos (readDigitsP s.core.buf s.core.pos).2)

/-- `readFloat` on the full state. -/
def readFloat (s : St) : FloatLit × St :=
  ((readFloatP s.core.buf s.core.pos).1,
   s.setPos (readFloatP s.core.buf s.core.pos).2)

/-! ### The decode engine -/

/-- Result of an engine step: a value (or payload) with the post-state, or a
thrown error with the state at the throw site. -/
abbrev Res (α : Type) : Type := Except (DErr × St) (α × St)

/-- Exception-propagating sequencing (JS statement order: a throw aborts). -/
def thenDo {α β : Type} (x : Res α) (f : α → St → Res β) : Res β :=
  match x with
  | .error e => .error e
  | .ok (a, s) => f a s

/-- One fuel level of the engine: all mutually recursive operations of the
source (`unserialize`, `unserializeObject`, `unserializeEnum`, the inline
`while` loops of the `a`/`l`/`b`/`q`/`M` handlers, and the enum-argument
sequence). -/
structure Engine where
  un : Resolver → St → Res Value
  obL : Resolver → Nat → St → Res Unit
  aL : Resolver → Nat → St → Res Unit
  lL : Resolver → Nat → St → Res Unit
  bL : Resolver → Nat → St → Res Unit
  qL : Resolver → Nat → St → Res Unit
  mL : Resolver → Nat → St → Res Unit
  eArgs : Resolver → Nat → St → Res (List Value)
  uEnum : Resolver → EnumDesc → String → Value → St → Res HObj

/-- Fuel exhausted: every operation reports `outOfFuel`. -/
def engineZero : Engine where
  un := fun _ s => .error (.outOfFuel, s)
  obL := fun _ _ s => .error (.outOfFuel, s)
  aL := fun _ _ s => .error (.outOfFuel, s)
  lL := fun _ _ s => .error (.outOfFuel, s)
  bL := fun _ _ s => .error (.outOfFuel, s)
  qL := fun _ _ s => .error (.outOfFuel, s)
  mL := fun _ _ s => .error (.outOfFuel, s)
  eArgs := fun _ _ s => .error (.outOfFuel, s)
  uEnum := fun _ _ _ _ s => .error (.outOfFuel, s)

/-- The 27 recognized tag bytes plus the `default` case of the source
`switch` (unknown byte or end of input). -/
inductive TagK where
  | tagN | tagT | tagF | tagZ | tagI | tagD | tagY | tagK | tagM | tagP
  | tagA | tagO | tagR | tagRR | tagX | tagC | tagW | tagJ | tagL | tagB
  | tagQ | tagMM | tagV | tagS | tagCC | tagAA | tagBB | tagBad
deriving DecidableEq, Repr

/-- Classify the byte at the cursor, mirroring the `switch` labels of
`unserialize` (source lines 176-346); `tagBad` is the `default` case, which
also receives NaN at end of input. -/
def tagOf (c : Option Char) : TagK :=
  if c = some 'n' then .tagN
  else if c = some 't' then .tagT
  else if c = some 'f' then .tagF
  else if c = some 'z' then .tagZ
  else if c = some 'i' then .tagI
  else if c = some 'd' then .tagD
  else if c = some 'y' then .tagY
  else if c = some 'k' then .tagK
  else if c = some 'm' then .tagM
  else if c = some 'p' then .tagP
  else if c = some 'a' then .tagA
  else if c = some 'o' then .tagO
  else if c = some 'r' then .tagR
  else if c = some 'R' then .tagRR
  else if c = some 'x' then .tagX
  else if c = some 'c' then .tagC
  else if c = some 'w' then .tagW
  else if c = some 'j' then .tagJ
  else if c = some 'l' then .tagL
  else if c = some 'b' then .tagB
  else if c = some 'q' then .tagQ
  else if c = some 'M' then .tagMM
  else if c = some 'v' then .tagV
  else if c = some 's' then .tagS
  else if c = some 'C' then .tagCC
  else if c = some 'A' then .tagAA
  else if c = some 'B' then .tagBB
  else .tagBad

/-- `unserialize` (source lines 171-350) in terms of the next-lower fuel
layer `e`: read the tag byte, advance, dispatch on the classified tag. -/
def unBody (e : Engine) (r : Resolver) (s : St) : Res Value :=
  match tagOf s.peek with
  | .tagN => .ok (.vnull, s.adv 1)                         -- line 177
  | .tagT => .ok (.vbool true, s.adv 1)                    -- line 179
  | .tagF => .ok (.vbool false, s.adv 1)                   -- line 181
  | .tagZ => .ok (.vint 0, s.adv 1)                        -- line 183
  | .tagI =>                                               -- line 185
    let q := readDigits (s.adv 1)
    .ok (.vint q.1, q.2)
  | .tagD =>                                               -- line 187
    let q := readFloat (s.adv 1)
    .ok (.vfloat q.1, q.2)
  | .tagY =>                                               -- lines 189-197
    let q := readDigits (s.adv 1)
    let len := q.1
    let s := q.2
    let ch := s.peek
    let s := s.adv 1
    if ch ≠ some ':' ∨ (s.core.buf.length : Int) - s.core.pos < len then
      .error (.invalidStringLength, s)
    else
      let raw := jsSubstr s.core.buf s.core.pos len
      let s := s.setPos (s.core.pos + len)
      match percentDecode raw with
      | none => .error (.uriError, s)
      | some t => .ok (.vstr (String.mk t), s.pushStr (String.mk t))
  | .tagK => .ok (.vfloat .nan, s.adv 1)                   -- line 198
  | .tagM => .ok (.vfloat .negInf, s.adv 1)                -- line 200
  | .tagP => .ok (.vfloat .posInf, s.adv 1)                -- line 202
  | .tagA =>                                               -- lines 204-220
    let n0 := (s.adv 1).core.heap.length
    let q := (s.adv 1).allocRec (.harr []) 'a' n0 n0
    let addr := q.1
    thenDo (e.aL r addr q.2) fun _ s => .ok (.ref addr, s)
  | .tagO =>                                               -- lines 221-225
    let n0 := (s.adv 1).core.heap.length
    let q := (s.adv 1).allocRec (.hobj []) 'o' n0 n0
    let addr := q.1
    thenDo (e.obL r addr q.2) fun _ s => .ok (.ref addr, s)
  | .tagR =>                                               -- lines 226-230
    let q := readDigits (s.adv 1)
    let n := q.1
    let s := q.2
    if n < 0 ∨ (s.core.heap.length : Int) ≤ n then
      .error (.invalidReference, s)
    else .ok (.ref n.toNat, s)
  | .tagRR =>                                              -- lines 231-235
    let q := readDigits (s.adv 1)
    let n := q.1
    let s := q.2
    if n < 0 ∨ (s.core.scache.length : Int) ≤ n then
      .error (.invalidStringReference, s)
    else .ok (.vstr (s.core.scache.getD n.toNat ""), s)
  | .tagX =>                                               -- line 236
    thenDo (e.un r (s.adv 1)) fun v s => .error (.propagated v, s)
  | .tagC =>                                               -- lines 238-246
    let n0 := (s.adv 1).core.heap.length
    thenDo (e.un r (s.adv 1)) fun nm s =>
      match lookupClass r nm with
      | none => .error (.classNotFound nm, s)
      | some (cname, _) =>
        let n1 := s.core.heap.length
        let q := s.allocRec (.hinst cname []) 'c' n0 n1
        let addr := q.1
        thenDo (e.obL r addr q.2) fun _ s => .ok (.ref addr, s)
  | .tagW =>                                               -- lines 247-255
    let n0 := (s.adv 1).core.heap.length
    thenDo (e.un r (s.adv 1)) fun nm s =>
      match lookupEnum r nm with
      | none => .error (.enumNotFound nm, s)
      | some (ename, ed) =>
        let n1 := s.core.heap.length
        thenDo (e.un r s) fun tagv s =>
          thenDo (e.uEnum r ed ename tagv s) fun obj s =>
            let q := s.allocRec obj 'w' n0 n1
            .ok (.ref q.1, q.2.adv 1)
  | .tagJ =>                                               -- lines 256-266
    let n0 := (s.adv 1).core.heap.length
    thenDo (e.un r (s.adv 1)) fun nm s =>
      match lookupEnum r nm with
      | none => .error (.enumNotFound nm, s)
      | some (ename, ed) =>
        let n1 := s.core.heap.length
        let q := readDigits (s.adv 1)
        thenDo (e.uEnum r ed ename (.vint q.1) q.2) fun obj s =>
          let q2 := s.allocRec obj 'j' n0 n1
          .ok (.ref q2.1, q2.2.adv 1)
  | .tagL =>                                               -- lines 267-273
    let n0 := (s.adv 1).core.heap.length
    let q := (s.adv 1).allocRec (.hlist []) 'l' n0 n0
    let addr := q.1
    thenDo (e.lL r addr q.2) fun _ s => .ok (.ref addr, s)
  | .tagB =>                                               -- lines 274-282
    let n0 := (s.adv 1).core.heap.length
    let q := (s.adv 1).allocRec (.hsmap []) 'b' n0 n0
    let addr := q.1
    thenDo (e.bL r addr q.2) fun _ s => .ok (.ref addr, s)
  | .tagQ =>                                               -- lines 283-294
    let n0 := (s.adv 1).core.heap.length
    let q := (s.adv 1).allocRec (.himap []) 'q' n0 n0
    let addr := q.1
    thenDo (e.qL r addr q.2) fun _ s => .ok (.ref addr, s)
  | .tagMM =>                                              -- lines 295-303
    let n0 := (s.adv 1).core.heap.length
    let q := (s.adv 1).allocRec (.hwmap []) 'M' n0 n0
    let addr := q.1
    thenDo (e.mL r addr q.2) fun _ s => .ok (.ref addr, s)
  | .tagV =>                                               -- lines 304-307
    let n0 := (s.adv 1).core.heap.length
    let q := readFloat (s.adv 1)
    let q2 := q.2.allocRec (.hdate q.1) 'v' n0 n0
    .ok (.ref q2.1, q2.2)
  | .tagS =>                                               -- lines 308-319
    let n0 := (s.adv 1).core.heap.length
    let q := readDigits (s.adv 1)
    let blen := q.1
    let s := q.2
    let ch := s.peek
    let s := s.adv 1
    if ch ≠ some ':' ∨ (s.core.buf.length : Int) - s.core.pos < blen then
      .error (.invalidBytesLength, s)
    else
      let raw := (jsSubstr s.core.buf s.core.pos blen).map b64Sub
      let s := s.setPos (s.core.pos + blen)
      let q2 := s.allocRec (.hbytes (String.mk raw)) 's' n0 n0
      .ok (.ref q2.1, q2.2)
  | .tagCC =>                                              -- lines 320-331
    let n0 := (s.adv 1).core.heap.length
    thenDo (e.un r (s.adv 1)) fun nm s =>
      match lookupClass r nm with
      | none => .error (.classNotFound nm, s)
      | some (cname, desc) =>
        let n1 := s.core.heap.length
        let q := s.allocRec (.hinst cname []) 'C' n0 n1
        let addr := q.1
        let s := q.2
        match desc.custom with
        | none => .error (.missingCustomDecode, s)
        | some hk =>
          match hk s.core with
          | .error (er, c2) => .error (er, ⟨c2, s.trace⟩)
          | .ok c2 =>
            let s : St := ⟨c2, s.trace⟩
            let ch := s.peek
            let s := s.adv 1
            if ch ≠ some 'g' then .error (.invalidCustomData, s)
            else .ok (.ref addr, s)
  | .tagAA =>                                              -- lines 332-338
    .error (.notImplemented "classes", s.adv 1)
  | .tagBB =>                                              -- lines 339-345
    .error (.notImplemented "enums", s.adv 1)
  | .tagBad =>                                             -- lines 346-349
    .error (.invalidChar s.core.pos, s)

/-- `unserializeObject` (source lines 93-109): alternate key/value until the
next character is `g`; keys must be strings. -/
def obBody (e : Engine) (r : Resolver) (addr : Nat) (s : St) : Res Unit :=
  if (s.core.buf.length : Int) ≤ s.core.pos then
    .error (.invalidObject, s)
  else if s.peek = some 'g' then .ok ((), s.adv 1)
  else
    thenDo (e.un r s) fun k s =>
      match k with
      | .vstr key =>
        thenDo (e.un r s) fun v s =>
          e.obL r addr (s.setField addr key v)
      | _ => .error (.invalidObjectKey, s)

/-- The array element loop (source lines 207-219). -/
def aBody (e : Engine) (r : Resolver) (addr : Nat) (s : St) : Res Unit :=
  if s.peek = some 'h' then .ok ((), s.adv 1)
  else if s.peek = some 'u' then
    let q := readDigits (s.adv 1)
    e.aL r addr (q.2.aFill addr q.1)
  else
    thenDo (e.un r s) fun v s =>
      e.aL r addr (s.aPush addr v)

/-- The list element loop (source lines 270-272). -/
def lBody (e : Engine) (r : Resolver) (addr : Nat) (s : St) : Res Unit :=
  if s.peek = some 'h' then .ok ((), s.adv 1)
  else
    thenDo (e.un r s) fun v s =>
      e.lL r addr (s.lPush addr v)

/-- The string-map loop (source lines 277-281). -/
def bBody (e : Engine) (r : Resolver) (addr : Nat) (s : St) : Res Unit :=
  if s.peek = some 'h' then .ok ((), s.adv 1)
  else
    thenDo (e.un r s) fun k s =>
      thenDo (e.un r s) fun v s =>
        e.bL r addr (s.bSet addr k v)

/-- The int-map loop (source lines 286-293): reads the separator character
first; `:` continues, `h` ends, anything else is an error. -/
def qBody (e : Engine) (r : Resolver) (addr : Nat) (s : St) : Res Unit :=
  let ch := s.peek
  let s := s.adv 1
  if ch = some ':' then
    let q := readDigits s
    thenDo (e.un r q.2) fun v s =>
      e.qL r addr (s.qSet addr q.1 v)
  else if ch = some 'h' then .ok ((), s)
  else .error (.invalidIntMap, s)

/-- The identity-map loop (source lines 298-302): `wm.set` evaluates both
arguments, then throws a TypeError when the key is not an object. -/
def mBody (e : Engine) (r : Resolver) (addr : Nat) (s : St) : Res Unit :=
  if s.peek = some 'h' then .ok ((), s.adv 1)
  else
    thenDo (e.un r s) fun k s =>
      thenDo (e.un r s) fun v s =>
        match k with
        | .ref _ => e.mL r addr (s.mSet addr k v)
        | _ => .error (.invalidWeakKey, s)

/-- The enum argument sequence (source line 124): decode `n` values in
order. -/
def eArgsBody (e : Engine) (r : Resolver) (n : Nat) (s : St) : Res (List Value) :=
  match n with
  | 0 => .ok ([], s)
  | n + 1 =>
    thenDo (e.un r s) fun v s =>
      thenDo (e.eArgs r n s) fun vs s =>
        .ok (v :: vs, s)

/-- `unserializeEnum` (source lines 111-127): skip one byte (the `:`),
resolve the variant, read the argument count, decode the arguments,
construct the instance.  `new Array(n)` throws for negative `n`. -/
def uEnumBody (e : Engine) (r : Resolver) (ed : EnumDesc) (ename : String)
    (tagv : Value) (s : St) : Res HObj :=
  let s := s.adv 1
  match findCtor ed.constructs tagv with
  | none => .error (.unknownEnumCtor, s)
  | some ctor =>
    let q := readDigits s
    let na := q.1
    if na < 0 then .error (.invalidEnumArgCount, q.2)
    else
      thenDo (e.eArgs r na.toNat q.2) fun args s =>
        .ok (.henum ename ctor.name args, s)

/-- One layer of the engine in terms of the next-lower fuel layer. -/
def engineStep (e : Engine) : Engine :=
  ⟨unBody e, obBody e, aBody e, lBody e, bBody e, qBody e, mBody e,
   eArgsBody e, uEnumBody e⟩

/-- The fuel-indexed engine. -/
def engine : Nat → Engine
  | 0 => engineZero
  | f + 1 => engineStep (engine f)

/-- `unserialize()` with the given fuel. -/
def unserialize (f : Nat) (r : Resolver) (s : St) : Res Value :=
  (engine f).un r s

/-- `unserializeObject(o)` with the given fuel (`o` lives at `addr`). -/
def unserializeObject (f : Nat) (r : Resolver) (addr : Nat) (s : St) : Res Unit :=
  (engine f).obL r addr s

/-- The array element loop of the `a` handler. -/
def aLoop (f : Nat) (r : Resolver) (addr : Nat) (s : St) : Res Unit :=
  (engine f).aL r addr s

/-- The list element loop of the `l` handler. -/
def lLoop (f : Nat) (r : Resolver) (addr : Nat) (s : St) : Res Unit :=
  (engine f).lL r addr s

/-- The string-map loop of the `b` handler. -/
def bLoop (f : Nat) (r : Resolver) (addr : Nat) (s : St) : Res Unit :=
  (engine f).bL r addr s

/-- The int-map loop of the `q` handler. -/
def qLoop (f : Nat) (r : Resolver) (addr : Nat) (s : St) : Res Unit :=
  (engine f).qL r addr s

/-- The identity-map loop of the `M` handler. -/
def mLoop (f : Nat) (r : Resolver) (addr : Nat) (s : St) : Res Unit :=
  (engine f).mL r addr s

/-- The enum argument sequence. -/
def enumArgs (f : Nat) (r : Resolver) (n : Nat) (s : St) : Res (List Value) :=
  (engine f).eArgs r n s

/-- `unserializeEnum(edecl, tag)`. -/
def unserializeEnum (f : Nat) (r : Resolver) (ed : EnumDesc) (ename : String)
    (tagv : Value) (s : St) : Res HObj :=
  (engine f).uEnum r ed ename tagv s

/-- Fresh decoder state on an input string (constructor, source lines 77-87). -/
def initSt (input : String) : St :=
  ⟨⟨input.toList, 0, [], []⟩, []⟩

/-- The state a result carries (post-state on success, throw-site state on
error). -/
def outSt {α : Type} : Res α → St
  | .ok (_, s) => s
  | .error (_, s) => s

/-- Whether a result is the embedding's fuel-exhaustion signal (as opposed to
a value or a genuine decode error). -/
def isFuelErr {α : Type} : Res α → Bool
  | .error (.outOfFuel, _) => true
  | _ => false

/-- `xs` is an initial segment of `ys`. -/
def PrefixOf {α : Type} (xs ys : List α) : Prop :=
  ∃ t, xs ++ t = ys

/-- The tags whose handler pushes the cache slot as its very first action
(before any payload byte is examined). -/
def startTags : List Char := ['a', 'o', 'l', 'b', 'q', 'M', 'v', 's']

/-- The per-push timing property established by the code: the eight
`startTags` push at payload start (slot index = cache length when the tag was
dispatched), and `c`/`C` push immediately after the type name was resolved
(slot index = cache length at that point), before any field payload. -/
def RecP (rec : PushRec) : Prop :=
  (rec.tag ∈ startTags → rec.lenPre = rec.lenStart) ∧
  ((rec.tag = 'c' ∨ rec.tag = 'C') → rec.lenPre = rec.lenName)

/-- All hooks a resolver can hand out only ever append to the string cache
(a vacuous condition for resolvers without custom-decode hooks). -/
def ScMono (r : Resolver) : Prop :=
  ∀ n d hk, r.resolveClass n = some d → d.custom = some hk →
    ∀ c : CoreSt,
      (∀ c2, hk c = .ok c2 → PrefixOf c.scache c2.scache) ∧
      (∀ er c2, hk c = .error (er, c2) → PrefixOf c.scache c2.scache)

/-- What one engine step guarantees about state evolution: the ghost trace
only grows, every new trace record satisfies the push-timing property
`RecP`, and (for resolvers whose hooks are well behaved) the string cache
only grows. -/
def StepOK (r : Resolver) (s s2 : St) : Prop :=
  PrefixOf s.trace s2.trace ∧
  (∀ rec, rec ∈ s2.trace → rec ∈ s.trace ∨ RecP rec) ∧
  (ScMono r → PrefixOf s.core.scache s2.core.scache)

/-- The resolver that resolves nothing (an empty registry). -/
def emptyResolver : Resolver :=
  ⟨fun _ => none, fun _ => none⟩


/-- Example registry: a class named `A` (without a custom-decode hook) and an
enum named `A` whose ordered variant list is the single variant `B`. -/
def sampleResolver : Resolver :=
  ⟨fun n => if n = "A" then some ⟨none⟩ else none,
   fun n => if n = "A" then some ⟨[⟨"B"⟩]⟩ else none⟩

/-- Modelled from the spec: the float-reader character class exactly as the
claim states it — `{+, -, ., 0-9, e, E}` (no `,`, no `/`). -/
def specFloatChar (c : Char) : Bool :=
  c = '+' || c = '-' || c = '.' || (48 ≤ c.toNat && c.toNat ≤ 57) ||
    c = 'e' || c = 'E'

/-- Modelled from the spec: the float reader as the claim describes it —
capture the maximal run of `specFloatChar` characters at the cursor and
return the host parse of that run. -/
def readFloatSpecP (buf : List Char) (pos : Int) : FloatLit × Int :=
  if pos < 0 then (.lit "", pos)
  else
    let run := (buf.drop pos.toNat).takeWhile specFloatChar
    (.lit (String.mk run), pos + run.length)

/-! ### Unfolding lemmas -/

theorem engine_succ (f : Nat) : engine (f + 1) = engineStep (engine f) := rfl

@[simp] theorem engine_un (f : Nat) : (engine f).un = unserialize f := rfl

@[simp] theorem engine_obL (f : Nat) : (engine f).obL = unserializeObject f := rfl

@[simp] theorem engine_aL (f : Nat) : (engine f).aL = aLoop f := rfl

@[simp] theorem engine_lL (f : Nat) : (engine f).lL = lLoop f := rfl

@[simp] theorem engine_bL (f : Nat) : (engine f).bL = bLoop f := rfl

@[simp] theorem engine_qL (f : Nat) : (engine f).qL = qLoop f := rfl

@[simp] theorem engine_mL (f : Nat) : (engine f).mL = mLoop f := rfl

@[simp] theorem engine_eArgs (f : Nat) : (engine f).eArgs = enumArgs f := rfl

@[simp] theorem engine_uEnum (f : Nat) : (engine f).uEnum = unserializeEnum f := rfl

theorem unserialize_succ (f : Nat) (r : Resolver) (s : St) :
    unserialize (f + 1) r s = unBody (engine f) r s := rfl

theorem unserializeObject_succ (f : Nat) (r : Resolver) (a : Nat) (s : St) :
    unserializeObject (f + 1) r a s = obBody (engine f) r a s := rfl

theorem aLoop_succ (f : Nat) (r : Resolver) (a : Nat) (s : St) :
    aLoop (f + 1) r a s = aBody (engine f) r a s := rfl

theorem lLoop_succ (f : Nat) (r : Resolver) (a : Nat) (s : St) :
    lLoop (f + 1) r a s = lBody (engine f) r a s := rfl

theorem bLoop_succ (f : Nat) (r : Resolver) (a : Nat) (s : St) :
    bLoop (f + 1) r a s = bBody (engine f) r a s := rfl

theorem qLoop_succ (f : Nat) (r : Resolver) (a : Nat) (s : St) :
    qLoop (f + 1) r a s = qBody (engine f) r a s := rfl

theorem mLoop_succ (f : Nat) (r : Resolver) (a : Nat) (s : St) :
    mLoop (f + 1) r a s = mBody (engine f) r a s := rfl

theorem enumArgs_succ (f : Nat) (r : Resolver) (n : Nat) (s : St) :
    enumArgs (f + 1) r n s = eArgsBody (engine f) r n s := rfl

theorem unserializeEnum_succ (f : Nat) (r : Resolver) (ed : EnumDesc)
    (nm : String) (tv : Value) (s : St) :
    unserializeEnum (f + 1) r ed nm tv s = uEnumBody (engine f) r ed nm tv s := rfl

@[simp] theorem outSt_ok {α : Type} (a : α) (s : St) :
    outSt (Except.ok (a, s) : Res α) = s := rfl

@[simp] theorem outSt_error {α : Type} (e : DErr) (s : St) :
    outSt (Except.error (e, s) : Res α) = s := rfl

theorem lookupClass_some {r : Resolver} {v : Value} {n : String} {d : ClassDesc}
    (h : lookupClass r v = some (n, d)) :
    v = .vstr n ∧ r.resolveClass n = some d := by
  cases v with
  | vstr m =>
    simp only [lookupClass] at h
    cases hr : r.resolveClass m <;> rw [hr] at h
    · exact Option.noConfusion h
    · simp only [Option.some.injEq, Prod.mk.injEq] at h
      obtain ⟨rfl, rfl⟩ := h
      exact ⟨rfl, hr⟩
  | vnull => exact Option.noConfusion h
  | vbool b => exact Option.noConfusion h
  | vint k => exact Option.noConfusion h
  | vfloat x => exact Option.noConfusion h
  | ref a => exact Option.noConfusion h

theorem lookupEnum_some {r : Resolver} {v : Value} {n : String} {d : EnumDesc}
    (h : lookupEnum r v = some (n, d)) :
    v = .vstr n ∧ r.resolveEnum n = some d := by
  cases v with
  | vstr m =>
    simp only [lookupEnum] at h
    cases hr : r.resolveEnum m <;> rw [hr] at h
    · exact Option.noConfusion h
    · simp only [Option.some.injEq, Prod.mk.injEq] at h
      obtain ⟨rfl, rfl⟩ := h
      exact ⟨rfl, hr⟩
  | vnull => exact Option.noConfusion h
  | vbool b => exact Option.noConfusion h
  | vint k => exact Option.noConfusion h
  | vfloat x => exact Option.noConfusion h
  | ref a => exact Option.noConfusion h

/-! ### The push-timing and cache-growth invariant -/

theorem PrefixOf.refl {α : Type} (xs : List α) : PrefixOf xs xs :=
  ⟨[], List.append_nil xs⟩

theorem PrefixOf.trans {α : Type} {xs ys zs : List α} :
    PrefixOf xs ys → PrefixOf ys zs → PrefixOf xs zs
  | ⟨t1, h1⟩, ⟨t2, h2⟩ => ⟨t1 ++ t2, by rw [← List.append_assoc, h1, h2]⟩

theorem PrefixOf.push {α : Type} (xs : List α) (a : α) : PrefixOf xs (xs ++ [a]) :=
  ⟨[a], rfl⟩

theorem PrefixOf.head {α : Type} {xs ys : List α} (h : PrefixOf xs ys)
    {i : Nat} (hi : i < xs.length) : ys.get? i = xs.get? i := by
  obtain ⟨t, ht⟩ := h
  rw [← ht]
  simp [List.getElem?_append_left hi]

theorem RecP_same (tg : Char) (n : Nat) : RecP ⟨tg, n, n, n⟩ :=
  ⟨fun _ => rfl, fun _ => rfl⟩

theorem RecP_c (n0 n1 : Nat) : RecP ⟨'c', n0, n1, n1⟩ := by
  refine ⟨fun h => ?_, fun _ => rfl⟩
  have h2 : ('c' : Char) ∈ startTags := h
  exact absurd h2 (by decide)

theorem RecP_C (n0 n1 : Nat) : RecP ⟨'C', n0, n1, n1⟩ := by
  refine ⟨fun h => ?_, fun _ => rfl⟩
  have h2 : ('C' : Char) ∈ startTags := h
  exact absurd h2 (by decide)

theorem RecP_w (n0 n1 n2 : Nat) : RecP ⟨'w', n0, n1, n2⟩ := by
  refine ⟨fun h => ?_, fun h => ?_⟩
  · have h2 : ('w' : Char) ∈ startTags := h
    exact absurd h2 (by decide)
  · have h2 : ('w' : Char) = 'c' ∨ ('w' : Char) = 'C' := h
    exact absurd h2 (by decide)

theorem RecP_j (n0 n1 n2 : Nat) : RecP ⟨'j', n0, n1, n2⟩ := by
  refine ⟨fun h => ?_, fun h => ?_⟩
  · have h2 : ('j' : Char) ∈ startTags := h
    exact absurd h2 (by decide)
  · have h2 : ('j' : Char) = 'c' ∨ ('j' : Char) = 'C' := h
    exact absurd h2 (by decide)

theorem stepOK_refl (r : Resolver) (s : St) : StepOK r s s :=
  ⟨PrefixOf.refl _, fun _ h => Or.inl h, fun _ => PrefixOf.refl _⟩

theorem stepOK_trans {r : Resolver} {s1 s2 s3 : St}
    (h1 : StepOK r s1 s2) (h2 : StepOK r s2 s3) : StepOK r s1 s3 := by
  refine ⟨h1.1.trans h2.1, fun rec hm => ?_, fun hsc => (h1.2.2 hsc).trans (h2.2.2 hsc)⟩
  rcases h2.2.1 rec hm with h | h
  · exact h1.2.1 rec h
  · exact Or.inr h

theorem stepOK_same {r : Resolver} {s s2 : St}
    (ht : s2.trace = s.trace) (hs : s2.core.scache = s.core.scache) :
    StepOK r s s2 := by
  refine ⟨?_, ?_, ?_⟩
  · rw [ht]; exact PrefixOf.refl _
  · intro rec hm; rw [ht] at hm; exact Or.inl hm
  · intro _; rw [hs]; exact PrefixOf.refl _

theorem stepOK_alloc {r : Resolver} (s : St) (obj : HObj) (tg : Char)
    (a b : Nat) (h : RecP ⟨tg, a, b, s.core.heap.length⟩) :
    StepOK r s (s.allocRec obj tg a b).2 := by
  refine ⟨PrefixOf.push _ _, fun rec hm => ?_, fun _ => PrefixOf.refl _⟩
  rcases List.mem_append.1 hm with h2 | h2
  · exact Or.inl h2
  · rcases List.mem_singleton.1 h2 with rfl
    exact Or.inr h

theorem stepOK_pushStr {r : Resolver} (s : St) (t : String) :
    StepOK r s (s.pushStr t) :=
  ⟨PrefixOf.refl _, fun _ h => Or.inl h, fun _ => PrefixOf.push _ _⟩

theorem stepOK_thenDo {α β : Type} {r : Resolver} {x : Res α}
    {g : α → St → Res β} {s : St}
    (hx : StepOK r s (outSt x))
    (hg : ∀ a s1, x = .ok (a, s1) → StepOK r s1 (outSt (g a s1))) :
    StepOK r s (outSt (thenDo x g)) := by
  match x with
  | .error e => exact hx
  | .ok (a, s1) => exact stepOK_trans hx (hg a s1 rfl)

theorem stepOK_hookOut {r : Resolver} {n : String} {d : ClassDesc} {hk : HookFn}
    (hres : r.resolveClass n = some d) (hcust : d.custom = some hk)
    (s : St) (c2 : CoreSt)
    (hout : hk s.core = .ok c2 ∨ ∃ er, hk s.core = .error (er, c2)) :
    StepOK r s ⟨c2, s.trace⟩ := by
  refine ⟨PrefixOf.refl _, fun rec hm => Or.inl hm, fun hmono => ?_⟩
  rcases hout with h | ⟨er, h⟩
  · exact (hmono n d hk hres hcust s.core).1 c2 h
  · exact (hmono n d hk hres hcust s.core).2 er c2 h

/-- The handlers that push their slot first: advance over the tag byte and
allocate with all three measurements equal to the current cache length. -/
theorem stepOK_allocStart (r : Resolver) (s : St) (obj : HObj) (tg : Char) :
    StepOK r s
      ((s.adv 1).allocRec obj tg (s.adv 1).core.heap.length
        (s.adv 1).core.heap.length).2 :=
  stepOK_trans (@stepOK_same r s (s.adv 1) rfl rfl)
    (stepOK_alloc (s.adv 1) obj tg _ _ (RecP_same tg _))

set_option maxHeartbeats 2000000 in
theorem stepOK_engine (r : Resolver) : ∀ f : Nat,
    (∀ s, StepOK r s (outSt (unserialize f r s))) ∧
    (∀ a s, StepOK r s (outSt (unserializeObject f r a s))) ∧
    (∀ a s, StepOK r s (outSt (aLoop f r a s))) ∧
    (∀ a s, StepOK r s (outSt (lLoop f r a s))) ∧
    (∀ a s, StepOK r s (outSt (bLoop f r a s))) ∧
    (∀ a s, StepOK r s (outSt (qLoop f r a s))) ∧
    (∀ a s, StepOK r s (outSt (mLoop f r a s))) ∧
    (∀ n s, StepOK r s (outSt (enumArgs f r n s))) ∧
    (∀ ed nm tv s, StepOK r s (outSt (unserializeEnum f r ed nm tv s))) := by
  intro f
  induction f with
  | zero =>
    exact ⟨fun s => stepOK_refl r s, fun a s => stepOK_refl r s,
      fun a s => stepOK_refl r s, fun a s => stepOK_refl r s,
      fun a s => stepOK_refl r s, fun a s => stepOK_refl r s,
      fun a s => stepOK_refl r s, fun n s => stepOK_refl r s,
      fun ed nm tv s => stepOK_refl r s⟩
  | succ f ih =>
    obtain ⟨ihU, ihOb, ihA, ihL, ihB, ihQ, ihM, ihE, ihEn⟩ := ih
    refine ⟨?_, ?_, ?_, ?_, ?_, ?_, ?_, ?_, ?_⟩
    · -- unserialize
      intro s
      rw [unserialize_succ]
      rw [unBody]
      split
      · exact stepOK_same rfl rfl  -- n
      · exact stepOK_same rfl rfl  -- t
      · exact stepOK_same rfl rfl  -- f
      · exact stepOK_same rfl rfl  -- z
      · exact stepOK_same rfl rfl  -- i
      · exact stepOK_same rfl rfl  -- d
      · -- y
        dsimp only
        split
        · exact stepOK_same rfl rfl
        · split
          · exact stepOK_same rfl rfl
          · exact stepOK_trans (stepOK_same rfl rfl) (stepOK_pushStr _ _)
      · exact stepOK_same rfl rfl  -- k
      · exact stepOK_same rfl rfl  -- m
      · exact stepOK_same rfl rfl  -- p
      · -- a
        exact stepOK_thenDo
          (stepOK_trans (stepOK_allocStart r s _ _) (ihA _ _))
          (fun u s1 _ => stepOK_refl r s1)
      · -- o
        exact stepOK_thenDo
          (stepOK_trans (stepOK_allocStart r s _ _) (ihOb _ _))
          (fun u s1 _ => stepOK_refl r s1)
      · -- r
        dsimp only
        split
        · exact stepOK_same rfl rfl
        · exact stepOK_same rfl rfl
      · -- R
        dsimp only
        split
        · exact stepOK_same rfl rfl
        · exact stepOK_same rfl rfl
      · -- x
        exact stepOK_thenDo
          (stepOK_trans (@stepOK_same r s (s.adv 1) rfl rfl) (ihU _))
          (fun v s1 _ => stepOK_refl r s1)
      · -- c
        refine stepOK_thenDo
          (stepOK_trans (@stepOK_same r s (s.adv 1) rfl rfl) (ihU _)) ?_
        intro nm s1 _
        split
        · exact stepOK_refl r s1
        · exact stepOK_thenDo
            (stepOK_trans (stepOK_alloc s1 _ 'c' _ _ (RecP_c _ _)) (ihOb _ _))
            (fun u s2 _ => stepOK_refl r s2)
      · -- w
        refine stepOK_thenDo
          (stepOK_trans (@stepOK_same r s (s.adv 1) rfl rfl) (ihU _)) ?_
        intro nm s1 _
        split
        · exact stepOK_refl r s1
        · refine stepOK_thenDo (ihU s1) ?_
          intro tv s2 _
          refine stepOK_thenDo (ihEn _ _ _ s2) ?_
          intro obj s3 _
          exact stepOK_trans
            (stepOK_alloc s3 obj 'w' _ _ (RecP_w _ _ _))
            (stepOK_same rfl rfl)
      · -- j
        refine stepOK_thenDo
          (stepOK_trans (@stepOK_same r s (s.adv 1) rfl rfl) (ihU _)) ?_
        intro nm s1 _
        split
        · exact stepOK_refl r s1
        · refine stepOK_thenDo
            (stepOK_trans (@stepOK_same r s1 ((readDigits (s1.adv 1)).2) rfl rfl)
              (ihEn _ _ _ _)) ?_
          intro obj s2 _
          exact stepOK_trans
            (stepOK_alloc s2 obj 'j' _ _ (RecP_j _ _ _))
            (stepOK_same rfl rfl)
      · -- l
        exact stepOK_thenDo
          (stepOK_trans (stepOK_allocStart r s _ _) (ihL _ _))
          (fun u s1 _ => stepOK_refl r s1)
      · -- b
        exact stepOK_thenDo
          (stepOK_trans (stepOK_allocStart r s _ _) (ihB _ _))
          (fun u s1 _ => stepOK_refl r s1)
      · -- q
        exact stepOK_thenDo
          (stepOK_trans (stepOK_allocStart r s _ _) (ihQ _ _))
          (fun u s1 _ => stepOK_refl r s1)
      · -- M
        exact stepOK_thenDo
          (stepOK_trans (stepOK_allocStart r s _ _) (ihM _ _))
          (fun u s1 _ => stepOK_refl r s1)
      · -- v
        dsimp only [outSt_ok]
        exact stepOK_trans
          (@stepOK_same r s ((readFloat (s.adv 1)).2) rfl rfl)
          (stepOK_alloc _ _ 'v' _ _ (RecP_same 'v' _))
      · -- s
        dsimp only
        split
        · exact stepOK_same rfl rfl
        · dsimp only [outSt_ok]
          refine stepOK_trans ?_ (stepOK_alloc _ _ 's' _ _ (RecP_same 's' _))
          exact stepOK_same rfl rfl
      · -- C
        refine stepOK_thenDo
          (stepOK_trans (@stepOK_same r s (s.adv 1) rfl rfl) (ihU _)) ?_
        intro nm s1 hnm
        split
        · exact stepOK_refl r s1
        · rename_i cname desc hLC
          split
          · -- no custom-decode hook
            exact stepOK_alloc s1 _ 'C' _ _ (RecP_C _ _)
          · rename_i hk hcust
            obtain ⟨hvs, hres⟩ := lookupClass_some hLC
            simp only []
            split
            · rename_i er c2 hkerr
              exact stepOK_trans (stepOK_alloc s1 _ 'C' _ _ (RecP_C _ _))
                (stepOK_hookOut hres hcust _ c2 (Or.inr ⟨er, hkerr⟩))
            · rename_i c2 hkok
              split
              · exact stepOK_trans
                  (stepOK_trans (stepOK_alloc s1 _ 'C' _ _ (RecP_C _ _))
                    (stepOK_hookOut hres hcust _ c2 (Or.inl hkok)))
                  (stepOK_same rfl rfl)
              · exact stepOK_trans
                  (stepOK_trans (stepOK_alloc s1 _ 'C' _ _ (RecP_C _ _))
                    (stepOK_hookOut hres hcust _ c2 (Or.inl hkok)))
                  (stepOK_same rfl rfl)
      · -- A
        exact stepOK_same rfl rfl
      · -- B
        exact stepOK_same rfl rfl
      · -- default
        exact stepOK_refl r s
    · -- unserializeObject
      intro a s
      rw [unserializeObject_succ]
      rw [obBody]
      split
      · exact stepOK_refl r s
      · split
        · exact stepOK_same rfl rfl
        · refine stepOK_thenDo (ihU s) ?_
          intro k s1 _
          split
          · refine stepOK_thenDo (ihU s1) ?_
            intro v s2 _
            refine stepOK_trans ?_ (ihOb _ _)
            exact stepOK_same rfl rfl
          · exact stepOK_refl r s1
    · -- aLoop
      intro a s
      rw [aLoop_succ]
      rw [aBody]
      split
      · exact stepOK_same rfl rfl
      · split
        · refine stepOK_trans ?_ (ihA _ _)
          exact stepOK_same rfl rfl
        · refine stepOK_thenDo (ihU s) ?_
          intro v s1 _
          refine stepOK_trans ?_ (ihA _ _)
          exact stepOK_same rfl rfl
    · -- lLoop
      intro a s
      rw [lLoop_succ]
      rw [lBody]
      split
      · exact stepOK_same rfl rfl
      · refine stepOK_thenDo (ihU s) ?_
        intro v s1 _
        refine stepOK_trans ?_ (ihL _ _)
        exact stepOK_same rfl rfl
    · -- bLoop
      intro a s
      rw [bLoop_succ]
      rw [bBody]
      split
      · exact stepOK_same rfl rfl
      · refine stepOK_thenDo (ihU s) ?_
        intro k s1 _
        refine stepOK_thenDo (ihU s1) ?_
        intro v s2 _
        refine stepOK_trans ?_ (ihB _ _)
        exact stepOK_same rfl rfl
    · -- qLoop
      intro a s
      rw [qLoop_succ]
      rw [qBody]
      dsimp only
      split
      · refine stepOK_thenDo ?_ ?_
        · exact stepOK_trans
            (@stepOK_same r s ((readDigits (s.adv 1)).2) rfl rfl) (ihU _)
        · intro v s1 _
          refine stepOK_trans ?_ (ihQ _ _)
          exact stepOK_same rfl rfl
      · split
        · exact stepOK_same rfl rfl
        · exact stepOK_same rfl rfl
    · -- mLoop
      intro a s
      rw [mLoop_succ]
      rw [mBody]
      split
      · exact stepOK_same rfl rfl
      · refine stepOK_thenDo (ihU s) ?_
        intro k s1 _
        refine stepOK_thenDo (ihU s1) ?_
        intro v s2 _
        split
        · refine stepOK_trans ?_ (ihM _ _)
          exact stepOK_same rfl rfl
        · exact stepOK_refl r s2
    · -- enumArgs
      intro n s
      rw [enumArgs_succ]
      rw [eArgsBody.eq_def]
      split
      · exact stepOK_refl r s
      · refine stepOK_thenDo (ihU s) ?_
        intro v s1 _
        refine stepOK_thenDo (ihE _ s1) ?_
        intro vs s2 _
        exact stepOK_refl r s2
    · -- unserializeEnum
      intro ed nm tv s
      rw [unserializeEnum_succ]
      rw [uEnumBody]
      dsimp only
      split
      · exact stepOK_same rfl rfl
      · split
        · exact stepOK_same rfl rfl
        · refine stepOK_thenDo ?_ ?_
          · exact stepOK_trans
              (@stepOK_same r s ((readDigits (s.adv 1)).2) rfl rfl) (ihE _ _)
          · intro args s1 _
            exact stepOK_refl r s1


/-- The state-evolution invariant for a whole `unserialize` call: the ghost
trace grows by records that all satisfy the push-timing property, and under
well-behaved hooks the string cache is append-only. -/
theorem stepOK_unserialize (f : Nat) (r : Resolver) (s : St) :
    StepOK r s (outSt (unserialize f r s)) :=
  (stepOK_engine r f).1 s

/-! ### Non-termination of `unserialize` on `"ly-5:"`

A `y` literal with a negative length passes the guard
`length - pos < len` (source line 191) and then executes `pos += len`
(line 194), moving the cursor backwards.  On the input `"ly-5:"` the `y`
handler returns with the cursor back at position 0, so the `l` element loop
re-reads the `l` tag forever: the real decoder recurses without bound.  In
the fuel embedding this shows as fuel exhaustion at every fuel. -/

theorem thenDo_fuelErr {α β : Type} {x : Res α} {g : α → St → Res β}
    (h : isFuelErr x = true) : isFuelErr (thenDo x g) = true := by
  match x with
  | .error (er, st) => cases er <;> simp_all [isFuelErr, thenDo]
  | .ok (a, st) => exact Bool.noConfusion h

theorem c5_yStep (g : Nat) (H : List HObj) (S : List String) (T : List PushRec) :
    unserialize (g + 1) emptyResolver ⟨⟨"ly-5:".toList, 1, H, S⟩, T⟩ =
      .ok (.vstr "", ⟨⟨"ly-5:".toList, 0, H, S ++ [""]⟩, T⟩) := rfl

theorem c5_lStep (g : Nat) (H : List HObj) (S : List String) (T : List PushRec) :
    unserialize (g + 1) emptyResolver ⟨⟨"ly-5:".toList, 0, H, S⟩, T⟩ =
      thenDo
        (lLoop g emptyResolver H.length
          ⟨⟨"ly-5:".toList, 1, H ++ [.hlist []], S⟩,
            T ++ [⟨'l', H.length, H.length, H.length⟩]⟩)
        (fun _ s => .ok (.ref H.length, s)) := rfl

theorem c5_loopStep0 (g : Nat) (a : Nat) (H : List HObj) (S : List String)
    (T : List PushRec) :
    lLoop (g + 1) emptyResolver a ⟨⟨"ly-5:".toList, 0, H, S⟩, T⟩ =
      thenDo (unserialize g emptyResolver ⟨⟨"ly-5:".toList, 0, H, S⟩, T⟩)
        (fun v s => lLoop g emptyResolver a (s.lPush a v)) := rfl

theorem c5_loopStep1 (g : Nat) (a : Nat) (H : List HObj) (S : List String)
    (T : List PushRec) :
    lLoop (g + 1) emptyResolver a ⟨⟨"ly-5:".toList, 1, H, S⟩, T⟩ =
      thenDo (unserialize g emptyResolver ⟨⟨"ly-5:".toList, 1, H, S⟩, T⟩)
        (fun v s => lLoop g emptyResolver a (s.lPush a v)) := rfl

theorem c5_loop : ∀ (g : Nat) (H : List HObj) (S : List String)
    (T : List PushRec) (a : Nat),
    isFuelErr (lLoop g emptyResolver a ⟨⟨"ly-5:".toList, 0, H, S⟩, T⟩) = true ∧
    isFuelErr (lLoop g emptyResolver a ⟨⟨"ly-5:".toList, 1, H, S⟩, T⟩) = true := by
  intro g
  induction g using Nat.strong_induction_on with
  | _ g ih =>
    match g with
    | 0 => exact fun H S T a => ⟨rfl, rfl⟩
    | 1 => exact fun H S T a => ⟨rfl, rfl⟩
    | (g' + 2) =>
      intro H S T a
      constructor
      · rw [c5_loopStep0, c5_lStep]
        apply thenDo_fuelErr
        apply thenDo_fuelErr
        exact (ih g' (by omega) _ _ _ _).2
      · rw [c5_loopStep1, c5_yStep]
        show isFuelErr (lLoop (g' + 1) emptyResolver a
          ((⟨⟨"ly-5:".toList, 0, H, S ++ [""]⟩, T⟩ : St).lPush a (.vstr ""))) = true
        exact (ih (g' + 1) (by omega) _ _ _ _).1

/-- C5 (the code bug): on the 5-byte input `ly-5:` with the empty resolver,
`unserialize` runs out of any amount of fuel — the real decoder does not
terminate.  The negative string length `-5` passes the guard
`length - pos < len`, `pos += len` rewinds the cursor to 0, and the list
element loop re-parses the same bytes forever. -/
theorem c5_diverges : ∀ f : Nat,
    isFuelErr (unserialize f emptyResolver (initSt "ly-5:")) = true := by
  intro f
  match f with
  | 0 => rfl
  | f + 1 =>
    rw [show initSt "ly-5:" = ⟨⟨"ly-5:".toList, 0, [], []⟩, []⟩ from rfl]
    rw [c5_lStep]
    apply thenDo_fuelErr
    exact (c5_loop f _ _ _ _).2


/-! ### The claims -/

/-- C2: on tags `c`, `C`, `w`, `j`, a decoded type name that the active
resolver does not resolve makes decoding fail with the resolution error
(`classNotFound` / `enumNotFound`), thrown in exactly the state the name
decode ended in — before any instance has been constructed or cached. -/
theorem c2_unresolved_types :
    (∀ (f : Nat) (r : Resolver) (s : St) (v : Value) (s1 : St),
      s.peek = some 'c' → unserialize f r (s.adv 1) = .ok (v, s1) →
      lookupClass r v = none →
      unserialize (f + 1) r s = .error (.classNotFound v, s1)) ∧
    (∀ (f : Nat) (r : Resolver) (s : St) (v : Value) (s1 : St),
      s.peek = some 'C' → unserialize f r (s.adv 1) = .ok (v, s1) →
      lookupClass r v = none →
      unserialize (f + 1) r s = .error (.classNotFound v, s1)) ∧
    (∀ (f : Nat) (r : Resolver) (s : St) (v : Value) (s1 : St),
      s.peek = some 'w' → unserialize f r (s.adv 1) = .ok (v, s1) →
      lookupEnum r v = none →
      unserialize (f + 1) r s = .error (.enumNotFound v, s1)) ∧
    (∀ (f : Nat) (r : Resolver) (s : St) (v : Value) (s1 : St),
      s.peek = some 'j' → unserialize f r (s.adv 1) = .ok (v, s1) →
      lookupEnum r v = none →
      unserialize (f + 1) r s = .error (.enumNotFound v, s1)) := by
  refine ⟨?_, ?_, ?_, ?_⟩ <;> intro f r s v s1 hpk hname hres
  · rw [unserialize_succ, unBody]
    rw [show tagOf s.peek = TagK.tagC by rw [hpk]; rfl]
    simp only [engine_un]
    rw [hname]
    simp only [thenDo]
    rw [hres]
  · rw [unserialize_succ, unBody]
    rw [show tagOf s.peek = TagK.tagCC by rw [hpk]; rfl]
    simp only [engine_un]
    rw [hname]
    simp only [thenDo]
    rw [hres]
  · rw [unserialize_succ, unBody]
    rw [show tagOf s.peek = TagK.tagW by rw [hpk]; rfl]
    simp only [engine_un]
    rw [hname]
    simp only [thenDo]
    rw [hres]
  · rw [unserialize_succ, unBody]
    rw [show tagOf s.peek = TagK.tagJ by rw [hpk]; rfl]
    simp only [engine_un]
    rw [hname]
    simp only [thenDo]
    rw [hres]

/-- Witness for C2 at concrete inputs: with `sampleResolver` (which only
registers the name `A`), each of the four tags fails with the resolution
error on the unregistered name `Z`. -/
theorem c2_unresolved_types_witness :
    unserialize 11 sampleResolver (initSt "cy1:Z") =
      .error (.classNotFound (.vstr "Z"),
        ⟨⟨"cy1:Z".toList, 5, [], ["Z"]⟩, []⟩) ∧
    unserialize 11 sampleResolver (initSt "Cy1:Z") =
      .error (.classNotFound (.vstr "Z"),
        ⟨⟨"Cy1:Z".toList, 5, [], ["Z"]⟩, []⟩) ∧
    unserialize 11 sampleResolver (initSt "wy1:Z") =
      .error (.enumNotFound (.vstr "Z"),
        ⟨⟨"wy1:Z".toList, 5, [], ["Z"]⟩, []⟩) ∧
    unserialize 11 sampleResolver (initSt "jy1:Z") =
      .error (.enumNotFound (.vstr "Z"),
        ⟨⟨"jy1:Z".toList, 5, [], ["Z"]⟩, []⟩) :=
  ⟨c2_unresolved_types.1 10 sampleResolver (initSt "cy1:Z") (.vstr "Z")
      ⟨⟨"cy1:Z".toList, 5, [], ["Z"]⟩, []⟩ rfl rfl rfl,
   c2_unresolved_types.2.1 10 sampleResolver (initSt "Cy1:Z") (.vstr "Z")
      ⟨⟨"Cy1:Z".toList, 5, [], ["Z"]⟩, []⟩ rfl rfl rfl,
   c2_unresolved_types.2.2.1 10 sampleResolver (initSt "wy1:Z") (.vstr "Z")
      ⟨⟨"wy1:Z".toList, 5, [], ["Z"]⟩, []⟩ rfl rfl rfl,
   c2_unresolved_types.2.2.2 10 sampleResolver (initSt "jy1:Z") (.vstr "Z")
      ⟨⟨"jy1:Z".toList, 5, [], ["Z"]⟩, []⟩ rfl rfl rfl⟩

/-- C4: an `r` index that is negative or not below the compound-cache length,
and an `R` index that is negative or not below the string-cache length, make
decoding fail with the format error (`invalidReference` /
`invalidStringReference`); no value is returned. -/
theorem c4_reference_bounds :
    (∀ (f : Nat) (r : Resolver) (s : St),
      s.peek = some 'r' →
      ((readDigits (s.adv 1)).1 < 0 ∨
        (s.core.heap.length : Int) ≤ (readDigits (s.adv 1)).1) →
      unserialize (f + 1) r s =
        .error (.invalidReference, (readDigits (s.adv 1)).2)) ∧
    (∀ (f : Nat) (r : Resolver) (s : St),
      s.peek = some 'R' →
      ((readDigits (s.adv 1)).1 < 0 ∨
        (s.core.scache.length : Int) ≤ (readDigits (s.adv 1)).1) →
      unserialize (f + 1) r s =
        .error (.invalidStringReference, (readDigits (s.adv 1)).2)) := by
  constructor <;> intro f r s hpk hcond
  · rw [unserialize_succ, unBody]
    rw [show tagOf s.peek = TagK.tagR by rw [hpk]; rfl]
    dsimp only
    split
    · rfl
    · rename_i hn
      exact absurd hcond hn
  · rw [unserialize_succ, unBody]
    rw [show tagOf s.peek = TagK.tagRR by rw [hpk]; rfl]
    dsimp only
    split
    · rfl
    · rename_i hn
      exact absurd hcond hn

/-- Witness for C4: `r0` with an empty compound cache, and `R-1` (a negative
string-cache index) both fail. -/
theorem c4_reference_bounds_witness :
    unserialize 5 emptyResolver (initSt "r0") =
      .error (.invalidReference, ⟨⟨"r0".toList, 2, [], []⟩, []⟩) ∧
    unserialize 5 emptyResolver (initSt "R-1") =
      .error (.invalidStringReference, ⟨⟨"R-1".toList, 3, [], []⟩, []⟩) :=
  ⟨c4_reference_bounds.1 4 emptyResolver (initSt "r0") rfl (by decide),
   c4_reference_bounds.2 4 emptyResolver (initSt "R-1") rfl (by decide)⟩

/-- C10: in an `M` (identity map) body, after a key and its value decode, a
key that is not an object (not a heap reference — i.e. a string, number,
boolean or null) makes decoding fail with the `WeakMap.set` TypeError; the
entry is never stored. -/
theorem c10_weakmap_keys (f : Nat) (r : Resolver) (a : Nat) (s : St)
    (k : Value) (s1 : St) (v : Value) (s2 : St)
    (hne : s.peek ≠ some 'h')
    (hkey : unserialize f r s = .ok (k, s1))
    (hprim : ∀ x : Nat, k ≠ .ref x)
    (hval : unserialize f r s1 = .ok (v, s2)) :
    mLoop (f + 1) r a s = .error (.invalidWeakKey, s2) := by
  rw [mLoop_succ, mBody]
  rw [if_neg hne]
  simp only [engine_un]
  rw [hkey]
  simp only [thenDo]
  cases k with
  | ref x => exact absurd rfl (hprim x)
  | vnull => rw [hval]
  | vbool b => rw [hval]
  | vint n => rw [hval]
  | vfloat x => rw [hval]
  | vstr t => rw [hval]

/-- Witness for C10 on the stream `Mzzh`: the key decodes to the integer 0,
so the identity-map loop fails with the TypeError after the value decode. -/
theorem c10_weakmap_keys_witness :
    mLoop 9 emptyResolver 0 ⟨⟨"Mzzh".toList, 1, [.hwmap []], []⟩, [⟨'M', 0, 0, 0⟩]⟩ =
      .error (.invalidWeakKey,
        ⟨⟨"Mzzh".toList, 3, [.hwmap []], []⟩, [⟨'M', 0, 0, 0⟩]⟩) :=
  c10_weakmap_keys 8 emptyResolver 0
    ⟨⟨"Mzzh".toList, 1, [.hwmap []], []⟩, [⟨'M', 0, 0, 0⟩]⟩
    (.vint 0) ⟨⟨"Mzzh".toList, 2, [.hwmap []], []⟩, [⟨'M', 0, 0, 0⟩]⟩
    (.vint 0) ⟨⟨"Mzzh".toList, 3, [.hwmap []], []⟩, [⟨'M', 0, 0, 0⟩]⟩
    (by decide) rfl (fun x h => Value.noConfusion h) rfl


/-- C8 (and the string-cache invariants): (i) across any decode the string
cache is append-only (given hooks that only append to it), so earlier
entries never move; (ii) a successful `y` literal appends exactly one entry
(its decoded text) to the string cache — duplicates included, since no
deduplication test exists; (iii) a successful `R` back-reference appends
nothing, and with index 0 it returns entry 0 — the first string decoded in
the session. -/
theorem c8_string_cache :
    (∀ (f : Nat) (r : Resolver) (s : St), ScMono r →
      PrefixOf s.core.scache (outSt (unserialize f r s)).core.scache) ∧
    (∀ (f : Nat) (r : Resolver) (s : St) (v : Value) (s1 : St),
      s.peek = some 'y' → unserialize f r s = .ok (v, s1) →
      ∃ t, v = .vstr t ∧ s1.core.scache = s.core.scache ++ [t]) ∧
    (∀ (f : Nat) (r : Resolver) (s : St) (v : Value) (s1 : St),
      s.peek = some 'R' → unserialize f r s = .ok (v, s1) →
      s1.core.scache = s.core.scache ∧
      ((readDigits (s.adv 1)).1 = 0 → v = .vstr (s.core.scache.getD 0 ""))) := by
  refine ⟨fun f r s hm => (stepOK_unserialize f r s).2.2 hm, ?_, ?_⟩
  · intro f r s v s1 hpk hok
    cases f with
    | zero => exact Except.noConfusion hok
    | succ f =>
      rw [unserialize_succ, unBody] at hok
      rw [show tagOf s.peek = TagK.tagY by rw [hpk]; rfl] at hok
      dsimp only at hok
      split at hok
      · exact Except.noConfusion hok
      · split at hok
        · exact Except.noConfusion hok
        · rename_i t hpd
          simp only [Except.ok.injEq, Prod.mk.injEq] at hok
          obtain ⟨hv, hs⟩ := hok
          exact ⟨String.mk t, hv.symm, by rw [← hs]; rfl⟩
  · intro f r s v s1 hpk hok
    cases f with
    | zero => exact Except.noConfusion hok
    | succ f =>
      rw [unserialize_succ, unBody] at hok
      rw [show tagOf s.peek = TagK.tagRR by rw [hpk]; rfl] at hok
      dsimp only at hok
      split at hok
      · exact Except.noConfusion hok
      · simp only [Except.ok.injEq, Prod.mk.injEq] at hok
        obtain ⟨hv, hs⟩ := hok
        refine ⟨by rw [← hs]; rfl, fun h0 => ?_⟩
        rw [← hv, h0]
        rfl

/-- Witness for C8: the empty resolver has no hooks (so `ScMono` holds
vacuously); `y3:abc` appends exactly `"abc"`; `R0` against a one-entry cache
returns that first entry and appends nothing. -/
theorem c8_string_cache_witness :
    PrefixOf ([] : List String)
      (outSt (unserialize 8 emptyResolver (initSt "y3:abc"))).core.scache ∧
    (∃ t, Value.vstr "abc" = Value.vstr t ∧
      (["abc"] : List String) = [] ++ [t]) ∧
    ((["abc"] : List String) = ["abc"] ∧
      ((0 : Int) = 0 → Value.vstr "abc" = .vstr ((["abc"] : List String).getD 0 ""))) := by
  refine ⟨?_, ?_, ?_⟩
  · exact c8_string_cache.1 8 emptyResolver (initSt "y3:abc")
      (fun n d hk hres => Option.noConfusion hres)
  · have h := c8_string_cache.2.1 8 emptyResolver (initSt "y3:abc")
      (.vstr "abc") ⟨⟨"y3:abc".toList, 6, [], ["abc"]⟩, []⟩ rfl rfl
    exact h
  · have h := c8_string_cache.2.2 8 emptyResolver
      ⟨⟨"R0".toList, 0, [], ["abc"]⟩, []⟩
      (.vstr "abc") ⟨⟨"R0".toList, 2, [], ["abc"]⟩, []⟩ rfl rfl
    exact ⟨h.1, fun _ => h.2 rfl⟩

/-- C1 as stated is false: it requires every compound tag to push its cache
slot before or at the start of its payload, i.e. every trace record would
satisfy `lenPre = lenStart`.  On `wy1:Ay1:B:1ahg` the enum instance is
pushed only after its argument payload (which itself pushed the array slot),
so the `w` record has `lenPre = 1` but `lenStart = 0`. -/
theorem c1_counterexample :
    ¬ (∀ (f : Nat) (r : Resolver) (s : St), s.trace = [] →
        ∀ rec ∈ (outSt (unserialize f r s)).trace, rec.lenPre = rec.lenStart) := by
  intro hclaim
  have hmem : (⟨'w', 0, 0, 1⟩ : PushRec) ∈
      (outSt (unserialize 12 sampleResolver (initSt "wy1:Ay1:B:1ahg"))).trace := by
    rw [show (outSt (unserialize 12 sampleResolver (initSt "wy1:Ay1:B:1ahg"))).trace
        = [⟨'a', 0, 0, 0⟩, ⟨'w', 0, 0, 1⟩] from rfl]
    decide
  have h := hclaim 12 sampleResolver (initSt "wy1:Ay1:B:1ahg") rfl
    ⟨'w', 0, 0, 1⟩ hmem
  exact absurd h (by decide)

/-- C1 amended: every record the decoder's cache pushes leave in the trace
satisfies the corrected timing discipline `RecP`: tags
`a o l b q M v s` push at payload start (slot index = cache length at
dispatch), and `c`/`C` push immediately after the type name resolves, before
the field payload; (`w`/`j` push only after their argument payload, as the
counterexample exhibits, and are unconstrained here beyond exactly one slot
per occurrence). -/
theorem c1_push_timing (f : Nat) (r : Resolver) (s : St) (h0 : s.trace = [])
    (rec : PushRec) (hm : rec ∈ (outSt (unserialize f r s)).trace) :
    RecP rec := by
  rcases (stepOK_unserialize f r s).2.1 rec hm with h | h
  · rw [h0] at h
    exact absurd h (List.not_mem_nil rec)
  · exact h

/-- Witness for the amended C1 at the array input `ai1i2h`. -/
theorem c1_push_timing_witness : RecP ⟨'a', 0, 0, 0⟩ :=
  c1_push_timing 8 emptyResolver (initSt "ai1i2h") rfl ⟨'a', 0, 0, 0⟩
    (by rw [show (outSt (unserialize 8 emptyResolver (initSt "ai1i2h"))).trace
          = [⟨'a', 0, 0, 0⟩] from rfl]
        decide)

/-- C3: (i) in every decode, a `c` record's slot index equals the cache
length right after the class name resolved — the bare instance is cached
before its field payload is decoded; (ii) concretely, `cy1:Ay1:xr0g`
decodes a class instance whose field `x` is the reference to the instance's
own cache slot 0: the `r0` back-reference inside the payload resolved to the
in-progress instance itself (same heap address), and the cyclic result
decodes with finite fuel. -/
theorem c3_cyclic_instances :
    (∀ (f : Nat) (r : Resolver) (s : St), s.trace = [] →
      ∀ rec ∈ (outSt (unserialize f r s)).trace, rec.tag = 'c' →
        rec.lenPre = rec.lenName) ∧
    unserialize 12 sampleResolver (initSt "cy1:Ay1:xr0g") =
      .ok (.ref 0,
        ⟨⟨"cy1:Ay1:xr0g".toList, 12, [.hinst "A" [("x", .ref 0)]], ["A", "x"]⟩,
          [⟨'c', 0, 0, 0⟩]⟩) := by
  constructor
  · intro f r s h0 rec hm htag
    rcases (stepOK_unserialize f r s).2.1 rec hm with h | h
    · rw [h0] at h
      exact absurd h (List.not_mem_nil rec)
    · exact h.2 (Or.inl htag)
  · rfl

/-- Witness for C3's universal part at the cyclic input itself. -/
theorem c3_cyclic_instances_witness :
    (⟨'c', 0, 0, 0⟩ : PushRec).lenPre = (⟨'c', 0, 0, 0⟩ : PushRec).lenName :=
  c3_cyclic_instances.1 12 sampleResolver (initSt "cy1:Ay1:xr0g") rfl
    ⟨'c', 0, 0, 0⟩
    (by rw [show (outSt (unserialize 12 sampleResolver (initSt "cy1:Ay1:xr0g"))).trace
          = [⟨'c', 0, 0, 0⟩] from rfl]
        decide)
    rfl

/-- C6 as stated is false: on the buffer `1,5` the source float reader also
consumes the comma (its character test accepts all of codes 43-57, which
includes `,` and `/`), capturing `"1,5"` and stopping at position 3, while
the claimed reader captures only `"1"` and stops at position 1. -/
theorem c6_counterexample :
    readFloatP "1,5".toList 0 = (.lit "1,5", 3) ∧
    readFloatSpecP "1,5".toList 0 = (.lit "1", 1) ∧
    readFloatP "1,5".toList 0 ≠ readFloatSpecP "1,5".toList 0 := by
  refine ⟨rfl, rfl, ?_⟩
  decide

theorem floatScan_eq_takeWhile (l : List Char) :
    floatScan l = l.takeWhile isFloatChar := by
  induction l with
  | nil => rfl
  | cons c rest ih =>
    rw [floatScan, List.takeWhile_cons]
    cases h : isFloatChar c <;> simp [h, ih]

theorem takeWhile_stop {α : Type} (p : α → Bool) :
    ∀ (l : List α) (c : α), l.get? (l.takeWhile p).length = some c →
      p c = false := by
  intro l
  induction l with
  | nil => intro c h; exact Option.noConfusion h
  | cons a rest ih =>
    intro c h
    cases pa : p a with
    | true =>
      rw [List.takeWhile_cons, pa] at h
      exact ih c h
    | false =>
      rw [List.takeWhile_cons, pa] at h
      simp only [List.length_nil, List.get?] at h
      cases h
      exact pa

/-- C6 amended: the float reader consumes exactly the maximal run of
characters whose codes lie in 43-57 (`+ , - . /` and the digits) or are
`e`/`E`, and returns the host float parse of that captured substring: the
captured run is the `takeWhile` of the corrected class, every consumed
character is in the class, and the character at the stop position (if any)
is not. -/
theorem c6_float_reader (buf : List Char) (pos : Int) (hpos : 0 ≤ pos) :
    (readFloatP buf pos).1 =
      .lit (String.mk ((buf.drop pos.toNat).takeWhile isFloatChar)) ∧
    (readFloatP buf pos).2 =
      pos + ((buf.drop pos.toNat).takeWhile isFloatChar).length ∧
    (∀ c ∈ (buf.drop pos.toNat).takeWhile isFloatChar, isFloatChar c = true) ∧
    (∀ c, chAt buf (readFloatP buf pos).2 = some c → isFloatChar c = false) := by
  have hnl : ¬pos < 0 := by omega
  refine ⟨?_, ?_, ?_, ?_⟩
  · rw [readFloatP, if_neg hnl, floatScan_eq_takeWhile]
  · rw [readFloatP, if_neg hnl, floatScan_eq_takeWhile]
  · intro c hc
    exact List.mem_takeWhile_imp hc
  · intro c hc
    rw [readFloatP, if_neg hnl] at hc
    dsimp only at hc
    rw [floatScan_eq_takeWhile] at hc
    apply takeWhile_stop isFloatChar (buf.drop pos.toNat) c
    rw [chAt] at hc
    have h0 : (0 : Int) ≤ pos + ((buf.drop pos.toNat).takeWhile isFloatChar).length := by
      omega
    rw [if_pos h0] at hc
    have harith : (pos + ((buf.drop pos.toNat).takeWhile isFloatChar).length).toNat
        = pos.toNat + ((buf.drop pos.toNat).takeWhile isFloatChar).length := by
      omega
    rw [harith] at hc
    rw [← List.get?_drop] at hc
    exact hc

/-- Witness for the amended C6 on the buffer `1,5e+x`: the captured run is
`1,5e+` and the stop character `x` is not in the class. -/
theorem c6_float_reader_witness :
    (0 : Int) ≤ 0 ∧
    (readFloatP "1,5e+x".toList 0).1 =
      .lit (String.mk (("1,5e+x".toList.drop 0).takeWhile isFloatChar)) :=
  ⟨by decide, (c6_float_reader "1,5e+x".toList 0 (by decide)).1⟩

/-- C7: the sparse-fill directive `u<n>` with `n ≥ 1` executes
`a[len + n - 1] = null`, which extends the array to length `len + n`,
preserves the existing cells, sets the final new slot to explicit `null`
(`some .vnull`), and leaves the `n - 1` new slots before it as unassigned
holes (`none`), a state distinct from explicit null.  The closed conjunct
shows the directive wired into the array handler: `au3h` yields
`[hole, hole, null]`. -/
theorem c7_sparse_fill :
    (∀ (cells : List (Option Value)) (n : Int), 1 ≤ n →
      (uApply cells n).length = cells.length + n.toNat ∧
      (uApply cells n).take cells.length = cells ∧
      (uApply cells n).get? (cells.length + n.toNat - 1) = some (some .vnull) ∧
      (∀ k, cells.length ≤ k → k + 1 < cells.length + n.toNat →
        (uApply cells n).get? k = some none)) ∧
    unserialize 10 emptyResolver (initSt "au3h") =
      .ok (.ref 0,
        ⟨⟨"au3h".toList, 4, [.harr [none, none, some .vnull]], []⟩,
          [⟨'a', 0, 0, 0⟩]⟩) := by
  constructor
  · intro cells n hn
    have hi0 : ¬((cells.length : Int) + n - 1 < 0) := by omega
    have hilen : ¬((cells.length : Int) + n - 1 < (cells.length : Int)) := by omega
    have htn : ((cells.length : Int) + n - 1).toNat - cells.length = n.toNat - 1 := by
      omega
    rw [uApply, arrSetNull, if_neg hi0, if_neg hilen, htn]
    have h1 : 1 ≤ n.toNat := by omega
    refine ⟨?_, ?_, ?_, ?_⟩
    · simp [List.length_append]
      omega
    · rw [List.append_assoc, List.take_left]
    · rw [List.append_assoc]
      rw [List.get?_append_right (by omega : cells.length ≤ cells.length + n.toNat - 1)]
      have hidx : cells.length + n.toNat - 1 - cells.length = n.toNat - 1 := by omega
      rw [hidx]
      rw [List.get?_append_right
        (by simp : (List.replicate (n.toNat - 1) (none : Option Value)).length ≤ n.toNat - 1)]
      simp
    · intro k hk1 hk2
      rw [List.append_assoc]
      rw [List.get?_append_right hk1]
      rw [List.get?_append
        (by simp; omega : k - cells.length <
          (List.replicate (n.toNat - 1) (none : Option Value)).length)]
      simp [List.get?_eq_getElem?, List.getElem?_replicate]
      omega
  · rfl

/-- Witness for C7 with `n = 3` on an empty array and on a one-element
array. -/
theorem c7_sparse_fill_witness :
    (1 : Int) ≤ 3 ∧
    (uApply [] 3).length = 0 + (3 : Int).toNat ∧
    (uApply [some (.vint 7)] 3).get? 1 = some none :=
  ⟨by decide, (c7_sparse_fill.1 [] 3 (by decide)).1,
   (c7_sparse_fill.1 [some (.vint 7)] 3 (by decide)).2.2.2 1 (by decide) (by decide)⟩

/-- C9: after a successful enum construction by name (`w`) or by index
(`j`), the decoder advances the cursor over exactly one trailing byte
without reading it: for every byte `c` appended after the enum payload,
decoding succeeds with the same enum instance and the final cursor sits one
past the payload end (13 = 12 + 1 for the `w` stream, 11 = 10 + 1 for the
`j` stream), whatever `c` is. -/
theorem c9_enum_trailing_byte (c : Char) :
    unserialize 12 sampleResolver
        ⟨⟨"wy1:Ay1:B:1z".toList ++ [c], 0, [], []⟩, []⟩ =
      .ok (.ref 0,
        ⟨⟨"wy1:Ay1:B:1z".toList ++ [c], 13,
          [.henum "A" "B" [.vint 0]], ["A", "B"]⟩, [⟨'w', 0, 0, 0⟩]⟩) ∧
    unserialize 12 sampleResolver
        ⟨⟨"jy1:A:0:1z".toList ++ [c], 0, [], []⟩, []⟩ =
      .ok (.ref 0,
        ⟨⟨"jy1:A:0:1z".toList ++ [c], 11,
          [.henum "A" "B" [.vint 0]], ["A"]⟩, [⟨'j', 0, 0, 0⟩]⟩) :=
  ⟨rfl, rfl⟩

end Qwkpkt
